import Mathlib

/-!
Shallow embedding of `src/bot.py` (solveathon-bot): the user registry
(`Database`), the broadcast scheduler (`BroadcastManager._check_broadcasts`,
`BroadcastManager._check_loop`), and the delivery fan-out
(`BroadcastManager._send_to_all_users`), together with theorems settling the
specification claims about them.
-/

namespace Bot

/-- A JSON scalar value as it can appear under the `"active"` field of a stored
user record (the store is read back with `json.load`, so the field can hold any
JSON value, not only a boolean).  Arrays/objects are not needed by any claim and
are omitted. -/
inductive JValue where
  | jnull : JValue
  | jbool (b : Bool) : JValue
  | jint (n : Int) : JValue
  | jstr (s : String) : JValue
deriving DecidableEq

/-- Python truthiness of a JSON scalar, as evaluated by
`if users[uid].get("active", True)` in `Database.get_all_user_ids`
(src/bot.py line 58): `None`, `False`, `0` and `""` are falsy. -/
def truthy : JValue → Bool
  | .jnull => false
  | .jbool b => b
  | .jint n => n != 0
  | .jstr s => s != ""

/-- One stored user record, as written by `Database.add_user`
(src/bot.py lines 45-50).  `active` is an `Option` because a record read back
from disk may lack the `"active"` key entirely (`dict.get` with default). -/
structure UserRecord where
  user_id : Int
  username : String
  registered_at : String
  active : Option JValue
deriving DecidableEq

/-- The users store: the JSON object persisted in `USERS_DB_FILE`, keyed by
`str(user_id)`.  Modelled as an association list in insertion order (Python
dicts preserve insertion order and have unique keys). -/
abbrev Store := List (String × UserRecord)

/-- Python dict assignment `users[k] = v`: replace the binding in place if the
key is present, otherwise append it. -/
def dictInsert (k : String) (v : UserRecord) : Store → Store
  | [] => [(k, v)]
  | (k1, v1) :: rest =>
      if k1 = k then (k, v) :: rest else (k1, v1) :: dictInsert k v rest

/-- Python dict lookup `users[k]` (first binding for `k`). -/
def dictGet (k : String) : Store → Option UserRecord
  | [] => none
  | (k1, v1) :: rest => if k1 = k then some v1 else dictGet k rest

/-- The observable states of the registry file for `Database.load_users`:
absent, present but unreadable (`open`/read raises `OSError`), or present with
some textual content. -/
inductive FileState where
  | missing : FileState
  | unreadable : FileState
  | content (s : String) : FileState

/-- `Database.load_users` (src/bot.py lines 24-33).  `parse` abstracts
`json.load` restricted to the expected record shape: `none` means the parse
raised (corrupt JSON).  The bare `except:` around `open`+`json.load` turns any
read or parse failure into the empty dict, and a missing file also yields the
empty dict. -/
def load_users (parse : String → Option Store) : FileState → Store
  | .missing => []
  | .unreadable => []
  | .content s =>
      match parse s with
      | some users => users
      | none => []

/-- `Database.save_users` (src/bot.py lines 35-39).  The write is performed
with no `try`/`except`, so a filesystem error (modelled by the `saveFails`
flag) propagates to the caller as an exception (`Except.error`). -/
def save_users (saveFails : Bool) (_users : Store) : Except Unit Unit :=
  if saveFails then Except.error () else Except.ok ()

/-- The record that `Database.add_user` writes for `user_id`/`username` at
timestamp `now` (src/bot.py lines 45-50): `active` is always set to `True`. -/
def freshRecord (now : String) (id : Int) (username : String) : UserRecord :=
  { user_id := id, username := username, registered_at := now,
    active := some (JValue.jbool true) }

/-- The store mutation performed by `Database.add_user` (src/bot.py lines
41-52) on the loaded store: `users[str(user_id)] = {...}`. -/
def add_user (now : String) (id : Int) (username : String) (store : Store) :
    Store :=
  dictInsert (toString id) (freshRecord now id username) store

/-- `Database.add_user` including the save step (src/bot.py line 51):
neither `add_user` nor `save_users` catches a save-time exception, so when the
save raises, the exception propagates to `add_user`'s caller. -/
def add_userE (saveFails : Bool) (now : String) (id : Int) (username : String)
    (store : Store) : Except Unit Store :=
  let users := add_user now id username store
  match save_users saveFails users with
  | Except.error e => Except.error e
  | Except.ok _ => Except.ok users

/-- The filter condition of `Database.get_all_user_ids` (src/bot.py line 58):
`users[uid].get("active", True)` under Python truthiness — a record lacking
the `"active"` key counts as active. -/
def activeTruthy (r : UserRecord) : Bool :=
  match r.active with
  | none => true
  | some v => truthy v

/-- `Database.get_all_user_ids` (src/bot.py lines 54-58):
`[int(uid) for uid in users.keys() if users[uid].get("active", True)]`.
`toInt` abstracts Python `int()` applied to the stored keys. -/
def get_all_user_ids (toInt : String → Int) (users : Store) : List Int :=
  (users.filter (fun p => activeTruthy p.2)).map (fun p => toInt p.1)

/-- Value of a list of decimal digit characters, most significant first. -/
def natOfDigits : List Char → Nat → Nat
  | [], acc => acc
  | c :: cs, acc => natOfDigits cs (acc * 10 + (c.toNat - 48))

/-- Python `int()` on the canonical decimal keys written by `add_user`
(`str(user_id)`): an optional leading minus sign followed by decimal digits. -/
def intOfKey (s : String) : Int :=
  match s.data with
  | '-' :: cs => -(natOfDigits cs 0 : Int)
  | cs => (natOfDigits cs 0 : Int)

/-- One schedule value: the `event_data` dict of a `BROADCAST_SCHEDULE` entry,
restricted to the two keys the broadcast code reads (`'message'`, `'title'`). -/
structure EventData where
  message : Option String
  title : Option String
deriving DecidableEq

/-- `event_data.get('message', event_data.get('title', ''))`
(src/bot.py lines 103 and 109). -/
def getMessage (d : EventData) : String :=
  d.message.getD (d.title.getD "")

/-- The broadcast schedule: a Python dict iterated in insertion order
(src/bot.py line 99), modelled as an association list. -/
abbrev Schedule := List (String × EventData)

/-- The fields of `datetime.now()` that the broadcast code formats. -/
structure DateTime where
  year : Nat
  month : Nat
  day : Nat
  hour : Nat
  minute : Nat
deriving DecidableEq

/-- Zero-padding to two digits, as in `strftime` `%H`, `%M`, `%m`, `%d`. -/
def pad2 (n : Nat) : String :=
  if n < 10 then "0" ++ toString n else toString n

/-- Zero-padding to four digits, as in `strftime` `%Y`. -/
def pad4 (n : Nat) : String :=
  if n < 10 then "000" ++ toString n
  else if n < 100 then "00" ++ toString n
  else if n < 1000 then "0" ++ toString n
  else toString n

/-- `datetime.now().strftime("%H:%M")` (src/bot.py line 96). -/
def fmtHM (t : DateTime) : String :=
  pad2 t.hour ++ ":" ++ pad2 t.minute

/-- `datetime.now().strftime("%Y-%m-%d %H:%M")` (src/bot.py line 97). -/
def fmtFull (t : DateTime) : String :=
  pad4 t.year ++ "-" ++ pad2 t.month ++ "-" ++ pad2 t.day ++ " " ++ fmtHM t

/-- The mutable dedup state of `BroadcastManager` (src/bot.py lines 67-68):
`sent_times` is the daily SentMarker set, `sent_dates` the absolute one.
Python sets, modelled as duplicate-free lists (elements are only added under a
not-member guard). -/
structure BState where
  sentTimes : List String
  sentDates : List String
deriving DecidableEq

/-- One invocation of `_send_to_all_users(message, schedule_key)`:
the pair `(schedule key, message text)`. -/
abbrev Attempt := String × String

/-- The body of the `for schedule_key, event_data in self.schedule.items()`
loop of `_check_broadcasts` (src/bot.py lines 99-111) for one entry, on the
path where `_send_to_all_users` does not raise: a 16-character key containing a
space is an absolute key checked against `current_datetime` and `sent_dates`;
otherwise a 5-character key containing a colon is a daily key checked against
`current_time` and `sent_times`; a due unsent key is broadcast and then added
to its marker set. -/
def procEntry (nowD nowA : String) (st : BState) (key : String)
    (d : EventData) : BState × List Attempt :=
  if key.length = 16 ∧ ' ' ∈ key.data then
    if key = nowA ∧ key ∉ st.sentDates then
      ({ st with sentDates := key :: st.sentDates }, [(key, getMessage d)])
    else (st, [])
  else if key.length = 5 ∧ ':' ∈ key.data then
    if key = nowD ∧ key ∉ st.sentTimes then
      ({ st with sentTimes := key :: st.sentTimes }, [(key, getMessage d)])
    else (st, [])
  else (st, [])

/-- The whole entry loop of `_check_broadcasts` (src/bot.py lines 99-111) on
the path where no `_send_to_all_users` call raises, returning the final dedup
state and the broadcasts performed, in order. -/
def check_entries (nowD nowA : String) : Schedule → BState → BState × List Attempt
  | [], st => (st, [])
  | (key, d) :: rest, st =>
      let r1 := procEntry nowD nowA st key d
      let r2 := check_entries nowD nowA rest r1.1
      (r2.1, r1.2 ++ r2.2)

/-- One full tick of `_check_broadcasts` (src/bot.py lines 94-115) at clock
time `t`, on the path where no `_send_to_all_users` call raises: run the entry
loop, then clear `sent_times` when the current HH:MM is exactly `"00:00"`
(the midnight reset, lines 113-115). -/
def check_broadcasts (sched : Schedule) (t : DateTime) (st : BState) :
    BState × List Attempt :=
  let r := check_entries (fmtHM t) (fmtFull t) sched st
  (if fmtHM t = "00:00" then { r.1 with sentTimes := [] } else r.1, r.2)

/-- A sequence of ticks of the `_check_loop` thread (src/bot.py lines 84-92)
at the given clock times, starting from dedup state `st`, collecting every
broadcast tagged with the tick time at which it happened. -/
def runTicks (sched : Schedule) :
    List DateTime → BState → BState × List (DateTime × Attempt)
  | [], st => (st, [])
  | t :: ts, st =>
      let r := check_broadcasts sched t st
      let rr := runTicks sched ts r.1
      (rr.1, r.2.map (fun b => (t, b)) ++ rr.2)

/-- One entry of `_check_broadcasts`'s loop when the `_send_to_all_users` call
may raise (e.g. `Database.get_all_user_ids` raising `ValueError` on a
non-numeric stored key): `bFails key = true` means the call for `key` raises.
The call happens before the `sent_times.add`/`sent_dates.add` line, so a
raising entry is recorded as attempted but not marked sent, and the `Bool`
component signals the exception propagating out of the entry. -/
def procEntryE (bFails : String → Bool) (nowD nowA : String) (st : BState)
    (key : String) (d : EventData) : BState × List Attempt × Bool :=
  if key.length = 16 ∧ ' ' ∈ key.data then
    if key = nowA ∧ key ∉ st.sentDates then
      if bFails key then (st, [(key, getMessage d)], true)
      else ({ st with sentDates := key :: st.sentDates },
            [(key, getMessage d)], false)
    else (st, [], false)
  else if key.length = 5 ∧ ':' ∈ key.data then
    if key = nowD ∧ key ∉ st.sentTimes then
      if bFails key then (st, [(key, getMessage d)], true)
      else ({ st with sentTimes := key :: st.sentTimes },
            [(key, getMessage d)], false)
    else (st, [], false)
  else (st, [], false)

/-- The entry loop of `_check_broadcasts` when `_send_to_all_users` may raise:
there is no per-entry `try`/`except` in `_check_broadcasts` (src/bot.py lines
94-115), so the first raising entry aborts the `for` loop and the exception
propagates; the remaining entries are not evaluated. -/
def check_entriesE (bFails : String → Bool) (nowD nowA : String) :
    Schedule → BState → BState × List Attempt × Bool
  | [], st => (st, [], false)
  | (key, d) :: rest, st =>
      let r1 := procEntryE bFails nowD nowA st key d
      if r1.2.2 then r1
      else
        let r2 := check_entriesE bFails nowD nowA rest r1.1
        (r2.1, r1.2.1 ++ r2.2.1, r2.2.2)

/-- One full tick of `_check_broadcasts` when `_send_to_all_users` may raise:
on an exception the midnight-reset lines 113-115 are also skipped, and the
exception is only caught one level up, by the `try`/`except` of `_check_loop`
(src/bot.py lines 86-92), which logs it and continues the loop. -/
def check_broadcastsE (bFails : String → Bool) (sched : Schedule)
    (t : DateTime) (st : BState) : BState × List Attempt × Bool :=
  let r := check_entriesE bFails (fmtHM t) (fmtFull t) sched st
  if r.2.2 then r
  else (if fmtHM t = "00:00" then { r.1 with sentTimes := [] } else r.1,
        r.2.1, false)

/-- The counters and the empty-registry notice of `_send_to_all_users`
(src/bot.py lines 117-138). `emptyNotice` records that the
"No active users to send broadcast" branch was taken. -/
structure DeliveryReport where
  sent : Nat
  failed : Nat
  emptyNotice : Bool
deriving DecidableEq

/-- The per-recipient loop of `_send_to_all_users` (src/bot.py lines 130-136)
with running counters `s`/`f`: each send is attempted inside its own
`try`/`except`, a failing send (`sendFails uid = true`) increments
`failed_count`, a succeeding one increments `sent_count`, and the loop always
proceeds to the next recipient.  Also returns the list of recipients actually
attempted, in order. -/
def fan_out (sendFails : Int → Bool) (s f : Nat) :
    List Int → Nat × Nat × List Int
  | [] => (s, f, [])
  | uid :: rest =>
      if sendFails uid then
        let r := fan_out sendFails s (f + 1) rest
        (r.1, r.2.1, uid :: r.2.2)
      else
        let r := fan_out sendFails (s + 1) f rest
        (r.1, r.2.1, uid :: r.2.2)

/-- `_send_to_all_users` (src/bot.py lines 117-138) applied to the recipient
list returned by `Database.get_all_user_ids`: the empty list takes the
early-return branch (lines 121-123) with no send attempted; otherwise the
fan-out loop runs over every recipient. -/
def send_to_all_users (sendFails : Int → Bool) (_message : String)
    (userIds : List Int) : DeliveryReport × List Int :=
  if userIds.isEmpty then
    ({ sent := 0, failed := 0, emptyNotice := true }, [])
  else
    let r := fan_out sendFails 0 0 userIds
    ({ sent := r.1, failed := r.2.1, emptyNotice := false }, r.2.2)

/-! ## Lemmas about the delivery fan-out -/

theorem fan_out_spec (sendFails : Int → Bool) :
    ∀ (ids : List Int) (s f : Nat),
      fan_out sendFails s f ids =
        (s + (ids.filter (fun u => !sendFails u)).length,
         f + (ids.filter sendFails).length, ids) := by
  intro ids
  induction ids with
  | nil => intro s f; simp [fan_out]
  | cons uid rest ih =>
    intro s f
    by_cases h : sendFails uid = true
    · simp [fan_out, h, ih, List.filter_cons, Prod.ext_iff]
      omega
    · simp only [Bool.not_eq_true] at h
      simp [fan_out, h, ih, List.filter_cons, Prod.ext_iff]
      omega

/-- C5: partial-failure isolation in the delivery fan-out.  Every recipient in
the list is attempted in order regardless of failures, `sent_count` counts the
succeeding sends, `failed_count` the failing ones, and in particular for
recipients `[a, b, c]` where only `b` fails the result is 2 sent, 1 failed. -/
theorem c5_fanout_isolation (sendFails : Int → Bool) (message : String) :
    (∀ ids, (send_to_all_users sendFails message ids).2 = ids) ∧
    (∀ ids,
      (send_to_all_users sendFails message ids).1.sent =
          (ids.filter (fun u => !sendFails u)).length ∧
      (send_to_all_users sendFails message ids).1.failed =
          (ids.filter sendFails).length) ∧
    (∀ a b c, sendFails a = false → sendFails b = true → sendFails c = false →
      (send_to_all_users sendFails message [a, b, c]).1.sent = 2 ∧
      (send_to_all_users sendFails message [a, b, c]).1.failed = 1) := by
  have hmain : ∀ ids, (send_to_all_users sendFails message ids).2 = ids ∧
      (send_to_all_users sendFails message ids).1.sent =
          (ids.filter (fun u => !sendFails u)).length ∧
      (send_to_all_users sendFails message ids).1.failed =
          (ids.filter sendFails).length := by
    intro ids
    cases ids with
    | nil => simp [send_to_all_users]
    | cons uid rest =>
      simp [send_to_all_users, fan_out_spec]
  refine ⟨fun ids => (hmain ids).1, fun ids => (hmain ids).2, ?_⟩
  intro a b c ha hb hc
  have h := (hmain [a, b, c]).2
  simp [List.filter_cons, ha, hb, hc] at h
  exact h

/-- Witness for C5 at a concrete input: recipients `[1, 2, 3]` where only the
send to `2` raises yield 2 sent and 1 failed. -/
theorem c5_witness :
    (send_to_all_users (fun u => u == 2) "msg" [1, 2, 3]).1.sent = 2 ∧
    (send_to_all_users (fun u => u == 2) "msg" [1, 2, 3]).1.failed = 1 :=
  (c5_fanout_isolation (fun u => u == 2) "msg").2.2 1 2 3 (by decide)
    (by decide) (by decide)

/-- C6: broadcasting to the empty recipient list is a no-op: it takes the
"no active users" early-return branch (`emptyNotice = true`), attempts no
send, raises nothing (the function is total), and its counters are 0/0. -/
theorem c6_empty_broadcast_noop (sendFails : Int → Bool) (message : String) :
    send_to_all_users sendFails message [] =
      ({ sent := 0, failed := 0, emptyNotice := true }, []) := rfl

/-! ## Lemmas about the user registry -/

theorem dictGet_dictInsert (k : String) (v : UserRecord) :
    ∀ s : Store, dictGet k (dictInsert k v s) = some v := by
  intro s
  induction s with
  | nil => simp [dictInsert, dictGet]
  | cons p rest ih =>
    obtain ⟨k1, v1⟩ := p
    by_cases h : k1 = k
    · simp [dictInsert, h, dictGet]
    · simp [dictInsert, h, dictGet, ih]

theorem keys_of_dictInsert (k x : String) (v : UserRecord) :
    ∀ s : Store, x ∈ (dictInsert k v s).map Prod.fst →
      x = k ∨ x ∈ s.map Prod.fst := by
  intro s
  induction s with
  | nil => simp [dictInsert]
  | cons p rest ih =>
    obtain ⟨k1, v1⟩ := p
    by_cases h : k1 = k
    · intro hx
      simp only [dictInsert, h, if_true, List.map_cons, List.mem_cons] at hx
      rcases hx with hx | hx
      · exact Or.inl hx
      · exact Or.inr (by simp [hx])
    · intro hx
      simp only [dictInsert, h, if_false, List.map_cons, List.mem_cons] at hx
      rcases hx with hx | hx
      · exact Or.inr (by simp [hx])
      · rcases ih hx with hx1 | hx1
        · exact Or.inl hx1
        · exact Or.inr (by simp [hx1])

theorem nodup_keys_dictInsert (k : String) (v : UserRecord) :
    ∀ s : Store, (s.map Prod.fst).Nodup →
      ((dictInsert k v s).map Prod.fst).Nodup := by
  intro s
  induction s with
  | nil => intro _; simp [dictInsert]
  | cons p rest ih =>
    obtain ⟨k1, v1⟩ := p
    intro hnd
    simp only [List.map_cons, List.nodup_cons] at hnd
    by_cases h : k1 = k
    · simp only [dictInsert, h, if_true, List.map_cons, List.nodup_cons]
      exact ⟨h ▸ hnd.1, hnd.2⟩
    · simp only [dictInsert, h, if_false, List.map_cons, List.nodup_cons]
      refine ⟨fun hx => ?_, ih hnd.2⟩
      rcases keys_of_dictInsert k k1 v rest hx with h1 | h1
      · exact h h1
      · exact hnd.1 h1

theorem count_key_zero (k : String) :
    ∀ s : Store, k ∉ s.map Prod.fst →
      (s.filter (fun p => p.1 == k)).length = 0 := by
  intro s
  induction s with
  | nil => intro _; simp
  | cons p rest ih =>
    obtain ⟨k1, v1⟩ := p
    intro h
    simp only [List.map_cons, List.mem_cons, not_or] at h
    have hne : (k1 == k) = false := by
      simp only [beq_eq_false_iff_ne, ne_eq]
      exact fun he => h.1 he.symm
    simp only [List.filter_cons, hne, Bool.false_eq_true, if_false]
    exact ih h.2

theorem count_key_dictInsert (k : String) (v : UserRecord) :
    ∀ s : Store, (s.map Prod.fst).Nodup →
      ((dictInsert k v s).filter (fun p => p.1 == k)).length = 1 := by
  intro s
  induction s with
  | nil => intro _; simp [dictInsert]
  | cons p rest ih =>
    obtain ⟨k1, v1⟩ := p
    intro hnd
    simp only [List.map_cons, List.nodup_cons] at hnd
    by_cases h : k1 = k
    · simp only [dictInsert, h, if_true, List.filter_cons, beq_self_eq_true,
        if_true, List.length_cons]
      have : k ∉ rest.map Prod.fst := h ▸ hnd.1
      rw [count_key_zero k rest this]
    · have hne : (k1 == k) = false := by
        simp only [beq_eq_false_iff_ne, ne_eq]; exact h
      simp only [dictInsert, h, if_false, List.filter_cons, hne,
        Bool.false_eq_true, if_false]
      exact ih hnd.2

/-- C7: `register` (i.e. `Database.add_user`) is an idempotent upsert.  After
`add_user` for the same `id` twice (with any two usernames), the store holds
exactly one record under the key `str(id)`, and that record has the latest
username, the latest timestamp, and `active = True`. -/
theorem c7_register_idempotent (t1 t2 : String) (id : Int) (n1 n2 : String)
    (s0 : Store) (hnd : (s0.map Prod.fst).Nodup) :
    (((add_user t2 id n2 (add_user t1 id n1 s0)).filter
        (fun p => p.1 == toString id)).length = 1) ∧
    dictGet (toString id) (add_user t2 id n2 (add_user t1 id n1 s0)) =
      some (freshRecord t2 id n2) := by
  constructor
  · exact count_key_dictInsert _ _ _
      (nodup_keys_dictInsert _ _ _ hnd)
  · exact dictGet_dictInsert _ _ _

/-- Witness for C7 at a concrete input: double registration of user 5 with
usernames "x" then "y" into the empty store. -/
theorem c7_witness :
    (((add_user "t2" 5 "y" (add_user "t1" 5 "x" [])).filter
        (fun p => p.1 == toString (5 : Int))).length = 1) ∧
    dictGet (toString (5 : Int)) (add_user "t2" 5 "y" (add_user "t1" 5 "x" [])) =
      some (freshRecord "t2" 5 "y") :=
  c7_register_idempotent "t1" "t2" 5 "x" "y" [] (by simp)

/-- C8 counterexample: at a concrete input where the persistence layer raises
while saving, `add_user` does not return normally — the exception propagates
to the caller (`add_userE` yields `Except.error`), because neither
`Database.add_user` nor `Database.save_users` has a `try`/`except` around the
write. -/
theorem c8_cex :
    add_userE true "2025-01-01T00:00:00" 7 "alice" [] = Except.error () := rfl

/-- C8 amended: `register` propagates persistence-layer save errors to its
caller; it returns normally exactly when the save succeeds.  (Only load-time
corruption is swallowed, inside `load_users`; the save path is unprotected.) -/
theorem c8_save_error_propagates (now : String) (id : Int) (username : String)
    (store : Store) :
    add_userE true now id username store = Except.error () ∧
    add_userE false now id username store =
      Except.ok (add_user now id username store) :=
  ⟨rfl, rfl⟩

/-- C9: `Database.load_users` never raises: a corrupt store (any content on
which the parse fails), a missing store file, and an unreadable store file all
degrade to the empty registry. -/
theorem c9_load_never_raises :
    (∀ (parse : String → Option Store) (s : String), parse s = none →
        load_users parse (FileState.content s) = []) ∧
    (∀ parse : String → Option Store,
        load_users parse FileState.missing = [] ∧
        load_users parse FileState.unreadable = []) := by
  refine ⟨?_, fun parse => ⟨rfl, rfl⟩⟩
  intro parse s h
  simp [load_users, h]

/-- Witness for C9 at a concrete input: a parse that fails on the concrete
content "not json" yields the empty registry. -/
theorem c9_witness :
    load_users (fun _ => none) (FileState.content "not json") = [] :=
  c9_load_never_raises.1 (fun _ => none) "not json" rfl

/-! ## Lemmas about the broadcast scheduler -/

theorem check_entries_nil (nowD nowA : String) (st : BState) :
    check_entries nowD nowA [] st = (st, []) := rfl

theorem check_entries_cons (nowD nowA key : String) (d : EventData)
    (rest : Schedule) (st : BState) :
    check_entries nowD nowA ((key, d) :: rest) st =
      ((check_entries nowD nowA rest (procEntry nowD nowA st key d).1).1,
       (procEntry nowD nowA st key d).2 ++
         (check_entries nowD nowA rest (procEntry nowD nowA st key d).1).2) :=
  rfl

theorem procEntry_cases (nowD nowA key : String) (d : EventData) (st : BState) :
    (key.length = 16 ∧ ' ' ∈ key.data ∧ key = nowA ∧ key ∉ st.sentDates ∧
      procEntry nowD nowA st key d =
        ({ st with sentDates := key :: st.sentDates }, [(key, getMessage d)])) ∨
    (key.length = 5 ∧ ':' ∈ key.data ∧ key = nowD ∧ key ∉ st.sentTimes ∧
      procEntry nowD nowA st key d =
        ({ st with sentTimes := key :: st.sentTimes }, [(key, getMessage d)])) ∨
    procEntry nowD nowA st key d = (st, []) := by
  by_cases h1 : key.length = 16 ∧ ' ' ∈ key.data
  · by_cases h2 : key = nowA ∧ key ∉ st.sentDates
    · exact Or.inl ⟨h1.1, h1.2, h2.1, h2.2,
        by unfold procEntry; rw [if_pos h1, if_pos h2]⟩
    · refine Or.inr (Or.inr ?_)
      unfold procEntry
      rw [if_pos h1, if_neg h2]
  · by_cases h3 : key.length = 5 ∧ ':' ∈ key.data
    · by_cases h4 : key = nowD ∧ key ∉ st.sentTimes
      · exact Or.inr (Or.inl ⟨h3.1, h3.2, h4.1, h4.2,
          by unfold procEntry; rw [if_neg h1, if_pos h3, if_pos h4]⟩)
      · refine Or.inr (Or.inr ?_)
        unfold procEntry
        rw [if_neg h1, if_pos h3, if_neg h4]
    · refine Or.inr (Or.inr ?_)
      unfold procEntry
      rw [if_neg h1, if_neg h3]

theorem procEntry_times_mono (nowD nowA key : String) (d : EventData)
    (st : BState) :
    st.sentTimes ⊆ (procEntry nowD nowA st key d).1.sentTimes := by
  rcases procEntry_cases nowD nowA key d st with
    ⟨_, _, _, _, he⟩ | ⟨_, _, _, _, he⟩ | he <;> rw [he]
  · exact fun x hx => hx
  · exact fun x hx => List.mem_cons_of_mem _ hx
  · exact fun x hx => hx

theorem procEntry_dates_mono (nowD nowA key : String) (d : EventData)
    (st : BState) :
    st.sentDates ⊆ (procEntry nowD nowA st key d).1.sentDates := by
  rcases procEntry_cases nowD nowA key d st with
    ⟨_, _, _, _, he⟩ | ⟨_, _, _, _, he⟩ | he <;> rw [he]
  · exact fun x hx => List.mem_cons_of_mem _ hx
  · exact fun x hx => hx
  · exact fun x hx => hx

theorem check_entries_times_mono (nowD nowA : String) :
    ∀ (es : Schedule) (st : BState),
      st.sentTimes ⊆ (check_entries nowD nowA es st).1.sentTimes := by
  intro es
  induction es with
  | nil => intro st; rw [check_entries_nil]; exact fun x hx => hx
  | cons e rest ih =>
    intro st
    obtain ⟨key, d⟩ := e
    rw [check_entries_cons]
    exact fun x hx => ih _ (procEntry_times_mono nowD nowA key d st hx)

theorem check_entries_dates_mono (nowD nowA : String) :
    ∀ (es : Schedule) (st : BState),
      st.sentDates ⊆ (check_entries nowD nowA es st).1.sentDates := by
  intro es
  induction es with
  | nil => intro st; rw [check_entries_nil]; exact fun x hx => hx
  | cons e rest ih =>
    intro st
    obtain ⟨key, d⟩ := e
    rw [check_entries_cons]
    exact fun x hx => ih _ (procEntry_dates_mono nowD nowA key d st hx)

/-- Any broadcast of a 5-character key `k` during the entry loop implies `k`
matched the current HH:MM and was not yet in `sent_times` at the start of the
loop. -/
theorem attempts_daily (nowD nowA k : String) (hl : k.length = 5) :
    ∀ (es : Schedule) (st : BState) (m : String),
      (k, m) ∈ (check_entries nowD nowA es st).2 →
      k = nowD ∧ k ∉ st.sentTimes := by
  intro es
  induction es with
  | nil =>
    intro st m h
    rw [check_entries_nil] at h
    simp at h
  | cons e rest ih =>
    intro st m h
    obtain ⟨key, d⟩ := e
    rw [check_entries_cons] at h
    rcases List.mem_append.mp h with h | h
    · rcases procEntry_cases nowD nowA key d st with
        ⟨h16, _, _, _, he⟩ | ⟨h5, _, hD, hT, he⟩ | he <;> rw [he] at h
      · exfalso
        simp only [List.mem_singleton, Prod.mk.injEq] at h
        rw [h.1] at hl
        omega
      · simp only [List.mem_singleton, Prod.mk.injEq] at h
        rw [h.1]
        exact ⟨hD, hT⟩
      · simp at h
    · have hr := ih (procEntry nowD nowA st key d).1 m h
      exact ⟨hr.1, fun hx => hr.2 (procEntry_times_mono nowD nowA key d st hx)⟩

/-- A 5-character `HH:MM` key present in the schedule, equal to the current
HH:MM, and not yet in `sent_times`, is broadcast by the entry loop. -/
theorem daily_due_fires (nowD nowA k : String) (hl : k.length = 5)
    (hc : ':' ∈ k.data) :
    ∀ (es : Schedule) (st : BState) (d : EventData),
      (k, d) ∈ es → k = nowD → k ∉ st.sentTimes →
      ∃ m, (k, m) ∈ (check_entries nowD nowA es st).2 := by
  intro es
  induction es with
  | nil => intro st d h _ _; simp at h
  | cons e rest ih =>
    intro st d hmem hD hT
    obtain ⟨key, d1⟩ := e
    rw [check_entries_cons]
    rcases List.mem_cons.mp hmem with hh | hh
    · have hk : key = k := (congrArg Prod.fst hh).symm
      have hd : d1 = d := (congrArg Prod.snd hh).symm
      rw [hk, hd]
      have h16 : ¬(k.length = 16 ∧ ' ' ∈ k.data) := by
        intro hcon
        have h1 := hcon.1
        rw [hl] at h1
        omega
      have he : procEntry nowD nowA st k d =
          ({ st with sentTimes := k :: st.sentTimes }, [(k, getMessage d)]) := by
        unfold procEntry
        rw [if_neg h16, if_pos ⟨hl, hc⟩, if_pos ⟨hD, hT⟩]
      rw [he]
      exact ⟨getMessage d, List.mem_append_left _ (List.mem_singleton.mpr rfl)⟩
    · by_cases hk1 : k ∈ (procEntry nowD nowA st key d1).1.sentTimes
      · rcases procEntry_cases nowD nowA key d1 st with
          ⟨_, _, _, _, he⟩ | ⟨_, _, _, _, he⟩ | he <;> rw [he] at hk1 ⊢
        · exact absurd hk1 hT
        · rcases List.mem_cons.mp hk1 with hx | hx
          · rw [hx]
            exact ⟨getMessage d1,
              List.mem_append_left _ (List.mem_singleton.mpr rfl)⟩
          · exact absurd hx hT
        · exact absurd hk1 hT
      · obtain ⟨m, hm⟩ := ih (procEntry nowD nowA st key d1).1 d hh hD hk1
        exact ⟨m, List.mem_append_right _ hm⟩

/-- After the entry loop broadcasts a 5-character key `k`, `k` is in the
loop's final `sent_times`. -/
theorem daily_fire_marks (nowD nowA k : String) (hl : k.length = 5) :
    ∀ (es : Schedule) (st : BState) (m : String),
      (k, m) ∈ (check_entries nowD nowA es st).2 →
      k ∈ (check_entries nowD nowA es st).1.sentTimes := by
  intro es
  induction es with
  | nil =>
    intro st m h
    rw [check_entries_nil] at h
    simp at h
  | cons e rest ih =>
    intro st m h
    obtain ⟨key, d⟩ := e
    rw [check_entries_cons] at h ⊢
    rcases List.mem_append.mp h with h | h
    · rcases procEntry_cases nowD nowA key d st with
        ⟨h16, _, _, _, he⟩ | ⟨h5, _, _, _, he⟩ | he <;> rw [he] at h ⊢
      · exfalso
        simp only [List.mem_singleton, Prod.mk.injEq] at h
        rw [h.1] at hl
        omega
      · simp only [List.mem_singleton, Prod.mk.injEq] at h
        exact check_entries_times_mono nowD nowA rest _
          (by rw [h.1]; exact List.mem_cons_self _ _)
      · simp at h
    · exact ih _ m h

theorem check_broadcasts_snd (sched : Schedule) (t : DateTime) (st : BState) :
    (check_broadcasts sched t st).2 =
      (check_entries (fmtHM t) (fmtFull t) sched st).2 := rfl

theorem check_broadcasts_sentDates (sched : Schedule) (t : DateTime)
    (st : BState) :
    (check_broadcasts sched t st).1.sentDates =
      (check_entries (fmtHM t) (fmtFull t) sched st).1.sentDates := by
  by_cases h : fmtHM t = "00:00" <;> simp [check_broadcasts, h]

theorem check_broadcasts_sentTimes_not_midnight (sched : Schedule)
    (t : DateTime) (st : BState) (h : fmtHM t ≠ "00:00") :
    (check_broadcasts sched t st).1.sentTimes =
      (check_entries (fmtHM t) (fmtFull t) sched st).1.sentTimes := by
  simp [check_broadcasts, h]

/-- C4: the midnight reset.  At any tick whose current time formats to
`"00:00"`, the daily SentMarker set `sent_times` is empty at the end of the
tick, so every previously marked daily key (e.g. `"09:00"`) is eligible to
fire again. -/
theorem c4_midnight_clears (sched : Schedule) (t : DateTime) (st : BState)
    (h : fmtHM t = "00:00") :
    (check_broadcasts sched t st).1.sentTimes = [] ∧
    ∀ x, x ∉ (check_broadcasts sched t st).1.sentTimes := by
  have he : (check_broadcasts sched t st).1.sentTimes = [] := by
    simp [check_broadcasts, h]
  refine ⟨he, fun x hx => ?_⟩
  rw [he] at hx
  simp at hx

/-- Witness for C4 at a concrete input: a tick at 2025-06-02 00:00 with
`"09:00"` previously marked sent leaves the daily SentMarker set empty. -/
theorem c4_witness :
    (check_broadcasts [("09:00", ⟨some "hi", none⟩)] ⟨2025, 6, 2, 0, 0⟩
        ⟨["09:00"], []⟩).1.sentTimes = [] :=
  (c4_midnight_clears [("09:00", ⟨some "hi", none⟩)] ⟨2025, 6, 2, 0, 0⟩
    ⟨["09:00"], []⟩ (by decide)).1

/-- C1 counterexample: the daily key `"00:00"` at a tick whose time is
2025-06-02 00:00 does fire, yet at the end of the tick it is NOT in the daily
SentMarker set — the midnight reset (src/bot.py lines 113-115) clears
`sent_times` after the loop added the key, so the claim's "when it fires, k is
added to the daily SentMarker set" fails for `k = "00:00"`. -/
theorem c1_cex :
    (check_broadcasts [("00:00", ⟨some "midnight", none⟩)] ⟨2025, 6, 2, 0, 0⟩
        ⟨[], []⟩).2 = [("00:00", "midnight")] ∧
    (check_broadcasts [("00:00", ⟨some "midnight", none⟩)] ⟨2025, 6, 2, 0, 0⟩
        ⟨[], []⟩).1.sentTimes = [] := by decide

/-- C1 amended: for a daily schedule key `k` (5 characters containing a colon)
the tick broadcasts `k`'s message iff the tick time's HH:MM equals `k` and `k`
is not in the daily SentMarker set; when it fires and the tick time is not
"00:00", `k` is in the daily SentMarker set at the end of the tick (at a
"00:00" tick the midnight reset clears the set, so the key does not remain
marked). -/
theorem c1_daily_fire_iff (sched : Schedule) (t : DateTime) (st : BState)
    (k : String) (d : EventData) (hmem : (k, d) ∈ sched)
    (hl : k.length = 5) (hc : ':' ∈ k.data) :
    ((∃ m, (k, m) ∈ (check_broadcasts sched t st).2) ↔
      (fmtHM t = k ∧ k ∉ st.sentTimes)) ∧
    (fmtHM t = k → k ∉ st.sentTimes → fmtHM t ≠ "00:00" →
      k ∈ (check_broadcasts sched t st).1.sentTimes) := by
  constructor
  · constructor
    · rintro ⟨m, hm⟩
      rw [check_broadcasts_snd] at hm
      have h := attempts_daily (fmtHM t) (fmtFull t) k hl sched st m hm
      exact ⟨h.1.symm, h.2⟩
    · rintro ⟨hD, hT⟩
      obtain ⟨m, hm⟩ :=
        daily_due_fires (fmtHM t) (fmtFull t) k hl hc sched st d hmem hD.symm hT
      exact ⟨m, by rw [check_broadcasts_snd]; exact hm⟩
  · intro hD hT hmid
    obtain ⟨m, hm⟩ :=
      daily_due_fires (fmtHM t) (fmtFull t) k hl hc sched st d hmem hD.symm hT
    rw [check_broadcasts_sentTimes_not_midnight sched t st hmid]
    exact daily_fire_marks (fmtHM t) (fmtFull t) k hl sched st m hm

/-- Witness for the amended C1 at a concrete input: the daily key `"09:00"`
fires at 2025-06-01 09:00 from the untouched state and is marked sent. -/
theorem c1_witness :
    "09:00" ∈ (check_broadcasts [("09:00", ⟨some "hello", none⟩)]
      ⟨2025, 6, 1, 9, 0⟩ ⟨[], []⟩).1.sentTimes :=
  (c1_daily_fire_iff [("09:00", ⟨some "hello", none⟩)] ⟨2025, 6, 1, 9, 0⟩
      ⟨[], []⟩ "09:00" ⟨some "hello", none⟩ (by decide) (by decide)
      (by decide)).2 (by decide) (by decide) (by decide)

theorem check_entries_cons_snd (nowD nowA key : String) (d : EventData)
    (rest : Schedule) (st : BState) :
    (check_entries nowD nowA ((key, d) :: rest) st).2 =
      (procEntry nowD nowA st key d).2 ++
        (check_entries nowD nowA rest (procEntry nowD nowA st key d).1).2 :=
  rfl

/-- Any broadcast of a 16-character key `k` during the entry loop implies `k`
matched the current YYYY-MM-DD HH:MM and was not yet in `sent_dates` at the
start of the loop. -/
theorem attempts_abs (nowD nowA k : String) (hl : k.length = 16) :
    ∀ (es : Schedule) (st : BState) (m : String),
      (k, m) ∈ (check_entries nowD nowA es st).2 →
      k = nowA ∧ k ∉ st.sentDates := by
  intro es
  induction es with
  | nil =>
    intro st m h
    rw [check_entries_nil] at h
    simp at h
  | cons e rest ih =>
    intro st m h
    obtain ⟨key, d⟩ := e
    rw [check_entries_cons] at h
    rcases List.mem_append.mp h with h | h
    · rcases procEntry_cases nowD nowA key d st with
        ⟨h16, _, hA, hD16, he⟩ | ⟨h5, _, _, _, he⟩ | he <;> rw [he] at h
      · simp only [List.mem_singleton, Prod.mk.injEq] at h
        rw [h.1]
        exact ⟨hA, hD16⟩
      · exfalso
        simp only [List.mem_singleton, Prod.mk.injEq] at h
        rw [h.1] at hl
        omega
      · simp at h
    · have hr := ih (procEntry nowD nowA st key d).1 m h
      exact ⟨hr.1, fun hx => hr.2 (procEntry_dates_mono nowD nowA key d st hx)⟩

/-- After the entry loop broadcasts a 16-character key `k`, `k` is in the
loop's final `sent_dates`. -/
theorem abs_fire_marks (nowD nowA k : String) (hl : k.length = 16) :
    ∀ (es : Schedule) (st : BState) (m : String),
      (k, m) ∈ (check_entries nowD nowA es st).2 →
      k ∈ (check_entries nowD nowA es st).1.sentDates := by
  intro es
  induction es with
  | nil =>
    intro st m h
    rw [check_entries_nil] at h
    simp at h
  | cons e rest ih =>
    intro st m h
    obtain ⟨key, d⟩ := e
    rw [check_entries_cons] at h ⊢
    rcases List.mem_append.mp h with h | h
    · rcases procEntry_cases nowD nowA key d st with
        ⟨h16, _, _, _, he⟩ | ⟨h5, _, _, _, he⟩ | he <;> rw [he] at h ⊢
      · simp only [List.mem_singleton, Prod.mk.injEq] at h
        exact check_entries_dates_mono nowD nowA rest _
          (by rw [h.1]; exact List.mem_cons_self _ _)
      · exfalso
        simp only [List.mem_singleton, Prod.mk.injEq] at h
        rw [h.1] at hl
        omega
      · simp at h
    · exact ih _ m h

/-- A key in the entry loop's final `sent_dates` was either already marked
before the loop or was broadcast by the loop: `sent_dates` gains only keys of
fired entries. -/
theorem abs_mark_new (nowD nowA k : String) :
    ∀ (es : Schedule) (st : BState),
      k ∈ (check_entries nowD nowA es st).1.sentDates →
      k ∈ st.sentDates ∨ ∃ m, (k, m) ∈ (check_entries nowD nowA es st).2 := by
  intro es
  induction es with
  | nil =>
    intro st h
    rw [check_entries_nil] at h
    exact Or.inl h
  | cons e rest ih =>
    intro st h
    obtain ⟨key, d⟩ := e
    rw [check_entries_cons] at h ⊢
    rcases ih (procEntry nowD nowA st key d).1 h with h1 | ⟨m, hm⟩
    · rcases procEntry_cases nowD nowA key d st with
        ⟨_, _, _, _, he⟩ | ⟨_, _, _, _, he⟩ | he <;> rw [he] at h1 ⊢
      · rcases List.mem_cons.mp h1 with hx | hx
        · refine Or.inr ⟨getMessage d, ?_⟩
          rw [hx]
          exact List.mem_append_left _ (List.mem_singleton.mpr rfl)
        · exact Or.inl hx
      · exact Or.inl h1
      · exact Or.inl h1
    · exact Or.inr ⟨m, List.mem_append_right _ hm⟩

theorem count_eq_zero_of_not_mem {k : String} {bs : List Attempt}
    (h : ∀ m, (k, m) ∉ bs) :
    (bs.filter (fun b => b.1 == k)).length = 0 := by
  rw [List.length_eq_zero, List.filter_eq_nil_iff]
  intro b hb
  simp only [beq_iff_eq]
  intro hk
  exact h b.2 (by rw [← hk]; exact hb)

/-- Within one entry loop, a 16-character key is broadcast at most once: once
fired it is in `sent_dates`, which blocks any further matching entry. -/
theorem abs_count_le_one (nowD nowA k : String) (hl : k.length = 16) :
    ∀ (es : Schedule) (st : BState),
      ((check_entries nowD nowA es st).2.filter
          (fun b => b.1 == k)).length ≤ 1 := by
  intro es
  induction es with
  | nil =>
    intro st
    rw [check_entries_nil]
    simp
  | cons e rest ih =>
    intro st
    obtain ⟨key, d⟩ := e
    rw [check_entries_cons_snd, List.filter_append, List.length_append]
    by_cases hk1 : ∃ m, (k, m) ∈ (procEntry nowD nowA st key d).2
    · obtain ⟨m, hm⟩ := hk1
      rcases procEntry_cases nowD nowA key d st with
        ⟨h16, _, _, _, he⟩ | ⟨h5, _, _, _, he⟩ | he <;> rw [he] at hm ⊢
      · simp only [List.mem_singleton, Prod.mk.injEq] at hm
        have hkey : k = key := hm.1
        have h0 : ((check_entries nowD nowA rest
            ({ st with sentDates := key :: st.sentDates },
              [(key, getMessage d)]).1).2.filter
                (fun b => b.1 == k)).length = 0 := by
          apply count_eq_zero_of_not_mem
          intro m2 hm2
          have hr := attempts_abs nowD nowA k hl rest _ m2 hm2
          exact hr.2 (by rw [hkey]; exact List.mem_cons_self _ _)
        have h1 : (([(key, getMessage d)] : List Attempt).filter
            (fun b => b.1 == k)).length = 1 := by
          simp [hkey]
        rw [h0, h1]
      · exfalso
        simp only [List.mem_singleton, Prod.mk.injEq] at hm
        rw [hm.1] at hl
        omega
      · simp at hm
    · push_neg at hk1
      have h0 : (((procEntry nowD nowA st key d).2).filter
          (fun b => b.1 == k)).length = 0 :=
        count_eq_zero_of_not_mem hk1
      rw [h0]
      simpa using ih (procEntry nowD nowA st key d).1

theorem runTicks_nil (sched : Schedule) (st : BState) :
    runTicks sched [] st = (st, []) := rfl

theorem runTicks_cons_snd (sched : Schedule) (t : DateTime)
    (ts : List DateTime) (st : BState) :
    (runTicks sched (t :: ts) st).2 =
      (check_broadcasts sched t st).2.map (fun b => (t, b)) ++
        (runTicks sched ts (check_broadcasts sched t st).1).2 := rfl

theorem count_tag (t : DateTime) (k : String) (bs : List Attempt) :
    ((bs.map (fun b => (t, b))).filter (fun x => x.2.1 == k)).length =
      (bs.filter (fun b => b.1 == k)).length := by
  induction bs with
  | nil => rfl
  | cons b rest ih => by_cases h : b.1 == k <;> simp [List.filter_cons, h, ih]

/-- Across any run of ticks, a 16-character key is broadcast at most once, is
never broadcast when already marked, and is broadcast only at ticks whose
YYYY-MM-DD HH:MM formats to the key. -/
theorem trace_abs (sched : Schedule) (k : String) (hl : k.length = 16) :
    ∀ (ts : List DateTime) (st : BState),
      (k ∈ st.sentDates →
        ((runTicks sched ts st).2.filter (fun b => b.2.1 == k)).length = 0) ∧
      ((runTicks sched ts st).2.filter (fun b => b.2.1 == k)).length ≤ 1 ∧
      (∀ t1 m, (t1, (k, m)) ∈ (runTicks sched ts st).2 → fmtFull t1 = k) := by
  intro ts
  induction ts with
  | nil =>
    intro st
    simp [runTicks_nil]
  | cons t ts ih =>
    intro st
    have hA : ∀ m, (k, m) ∈ (check_broadcasts sched t st).2 →
        k = fmtFull t ∧ k ∉ st.sentDates := by
      intro m hm
      rw [check_broadcasts_snd] at hm
      exact attempts_abs (fmtHM t) (fmtFull t) k hl sched st m hm
    have htick_le : ((check_broadcasts sched t st).2.filter
        (fun b => b.1 == k)).length ≤ 1 := by
      rw [check_broadcasts_snd]
      exact abs_count_le_one (fmtHM t) (fmtFull t) k hl sched st
    have hzero : k ∈ st.sentDates →
        ((runTicks sched (t :: ts) st).2.filter
          (fun b => b.2.1 == k)).length = 0 := by
      intro hk
      rw [runTicks_cons_snd, List.filter_append, List.length_append, count_tag]
      have h0tick : ((check_broadcasts sched t st).2.filter
          (fun b => b.1 == k)).length = 0 :=
        count_eq_zero_of_not_mem (fun m hm => (hA m hm).2 hk)
      have hst1 : k ∈ (check_broadcasts sched t st).1.sentDates := by
        rw [check_broadcasts_sentDates]
        exact check_entries_dates_mono (fmtHM t) (fmtFull t) sched st hk
      have h0rest := (ih (check_broadcasts sched t st).1).1 hst1
      omega
    have hle : ((runTicks sched (t :: ts) st).2.filter
        (fun b => b.2.1 == k)).length ≤ 1 := by
      by_cases hk : k ∈ st.sentDates
      · have h0 := hzero hk
        omega
      · rw [runTicks_cons_snd, List.filter_append, List.length_append,
          count_tag]
        by_cases hf : ∃ m, (k, m) ∈ (check_broadcasts sched t st).2
        · obtain ⟨m, hm⟩ := hf
          have hst1 : k ∈ (check_broadcasts sched t st).1.sentDates := by
            rw [check_broadcasts_sentDates]
            exact abs_fire_marks (fmtHM t) (fmtFull t) k hl sched st m
              (by rw [check_broadcasts_snd] at hm; exact hm)
          have h0rest := (ih (check_broadcasts sched t st).1).1 hst1
          omega
        · push_neg at hf
          have h0tick := count_eq_zero_of_not_mem hf
          have hrest_le := (ih (check_broadcasts sched t st).1).2.1
          omega
    have hmatch : ∀ t1 m, (t1, (k, m)) ∈ (runTicks sched (t :: ts) st).2 →
        fmtFull t1 = k := by
      intro t1 m hm
      rw [runTicks_cons_snd] at hm
      rcases List.mem_append.mp hm with hm | hm
      · rcases List.mem_map.mp hm with ⟨b, hb, heq⟩
        have ht : t = t1 := congrArg Prod.fst heq
        have hb2 : b = (k, m) := congrArg Prod.snd heq
        rw [← ht]
        rw [hb2] at hb
        exact ((hA m) hb).1.symm
      · exact (ih (check_broadcasts sched t st).1).2.2 t1 m hm
    exact ⟨hzero, hle, hmatch⟩

/-- C2: an absolute schedule key `k` ("YYYY-MM-DD HH:MM", 16 characters with a
space) is broadcast at most once across any sequence of ticks of one process
lifetime (starting from the fresh empty dedup state), every broadcast of `k`
happens at a tick whose date-time formats exactly to `k`, and the absolute
SentMarker set `sent_dates` is never cleared (it only grows at every tick). -/
theorem c2_absolute_once (sched : Schedule) (k : String) (ts : List DateTime)
    (t : DateTime) (st : BState)
    (hl : k.length = 16) (_hs : ' ' ∈ k.data) :
    (((runTicks sched ts ⟨[], []⟩).2.filter
        (fun b => b.2.1 == k)).length ≤ 1) ∧
    (∀ t1 m, (t1, (k, m)) ∈ (runTicks sched ts ⟨[], []⟩).2 → fmtFull t1 = k) ∧
    st.sentDates ⊆ (check_broadcasts sched t st).1.sentDates := by
  refine ⟨(trace_abs sched k hl ts ⟨[], []⟩).2.1,
    (trace_abs sched k hl ts ⟨[], []⟩).2.2, ?_⟩
  intro x hx
  rw [check_broadcasts_sentDates]
  exact check_entries_dates_mono (fmtHM t) (fmtFull t) sched st hx

/-- Witness for C2 at a concrete input: two ticks both at 2025-06-01 14:30
deliver the absolute key's message at most once. -/
theorem c2_witness :
    ((runTicks [("2025-06-01 14:30", ⟨some "Workshop B", none⟩)]
        [⟨2025, 6, 1, 14, 30⟩, ⟨2025, 6, 1, 14, 30⟩] ⟨[], []⟩).2.filter
        (fun b => b.2.1 == "2025-06-01 14:30")).length ≤ 1 :=
  (c2_absolute_once [("2025-06-01 14:30", ⟨some "Workshop B", none⟩)]
    "2025-06-01 14:30" [⟨2025, 6, 1, 14, 30⟩, ⟨2025, 6, 1, 14, 30⟩]
    ⟨2025, 6, 1, 14, 30⟩ ⟨[], []⟩ (by decide) (by decide)).1

/-- C3 counterexample: at the tick 2025-06-01 09:00 both schedule entries are
due — the absolute key "2025-06-01 09:00" and the daily key "09:00".
Broadcasting the first one raises, and because `_check_broadcasts` has no
per-entry `try`/`except`, the daily entry is never evaluated: it is neither
broadcast (the attempt list holds only the first entry) nor marked sent (the
final state is unchanged), and the exception propagates to the check loop. -/
theorem c3_cex :
    check_broadcastsE (fun s => s == "2025-06-01 09:00")
        [("2025-06-01 09:00", ⟨some "A", none⟩), ("09:00", ⟨some "B", none⟩)]
        ⟨2025, 6, 1, 9, 0⟩ ⟨[], []⟩ =
      (⟨[], []⟩, [("2025-06-01 09:00", "A")], true) := by decide

/-- C3 amended: a due schedule entry whose broadcast raises aborts the tick at
that entry: the dedup state is left unchanged (the raising entry is NOT marked
sent), no later entry of the same tick is evaluated or broadcast, the
midnight reset is skipped, and the exception propagates out of
`_check_broadcasts` (it is caught only at the tick boundary by
`_check_loop`). -/
theorem c3_error_aborts_tick (bFails : String → Bool) (k : String)
    (d : EventData) (rest : Schedule) (t : DateTime) (st : BState)
    (hl : k.length = 5) (hc : ':' ∈ k.data) (hD : fmtHM t = k)
    (hT : k ∉ st.sentTimes) (hf : bFails k = true) :
    check_broadcastsE bFails ((k, d) :: rest) t st =
      (st, [(k, getMessage d)], true) := by
  have h16 : ¬(k.length = 16 ∧ ' ' ∈ k.data) := by
    intro hcon
    have h1 := hcon.1
    rw [hl] at h1
    omega
  have he : procEntryE bFails (fmtHM t) (fmtFull t) st k d =
      (st, [(k, getMessage d)], true) := by
    unfold procEntryE
    rw [if_neg h16, if_pos ⟨hl, hc⟩, if_pos ⟨hD.symm, hT⟩, if_pos hf]
  show (let r := check_entriesE bFails (fmtHM t) (fmtFull t) ((k, d) :: rest) st
    if r.2.2 then r
    else (if fmtHM t = "00:00" then { r.1 with sentTimes := [] } else r.1,
          r.2.1, false)) = (st, [(k, getMessage d)], true)
  have hloop : check_entriesE bFails (fmtHM t) (fmtFull t) ((k, d) :: rest) st =
      (st, [(k, getMessage d)], true) := by
    show (let r1 := procEntryE bFails (fmtHM t) (fmtFull t) st k d
      if r1.2.2 then r1
      else
        let r2 := check_entriesE bFails (fmtHM t) (fmtFull t) rest r1.1
        (r2.1, r1.2.1 ++ r2.2.1, r2.2.2)) = (st, [(k, getMessage d)], true)
    rw [he]
    rfl
  rw [hloop]
  rfl

/-- Witness for the amended C3 at a concrete input: the single due daily entry
"09:00" whose broadcast raises leaves the state unchanged and propagates. -/
theorem c3_witness :
    check_broadcastsE (fun s => s == "09:00") [("09:00", ⟨some "B", none⟩)]
        ⟨2025, 6, 1, 9, 0⟩ ⟨[], []⟩ = (⟨[], []⟩, [("09:00", "B")], true) :=
  c3_error_aborts_tick (fun s => s == "09:00") "09:00" ⟨some "B", none⟩ []
    ⟨2025, 6, 1, 9, 0⟩ ⟨[], []⟩ (by decide) (by decide) (by decide) (by decide)
    (by decide)

theorem nodup_keys_value_eq (k : String) (r r' : UserRecord) :
    ∀ s : Store, (s.map Prod.fst).Nodup → (k, r) ∈ s → (k, r') ∈ s →
      r = r' := by
  intro s
  induction s with
  | nil => intro _ h; simp at h
  | cons p rest ih =>
    intro hnd h1 h2
    obtain ⟨k1, v1⟩ := p
    simp only [List.map_cons, List.nodup_cons] at hnd
    rcases List.mem_cons.mp h1 with h1 | h1 <;>
      rcases List.mem_cons.mp h2 with h2 | h2
    · have e1 : r = v1 := congrArg Prod.snd h1
      have e2 : r' = v1 := congrArg Prod.snd h2
      rw [e1, e2]
    · exfalso
      have hk : k = k1 := congrArg Prod.fst h1
      apply hnd.1
      rw [← hk]
      exact List.mem_map_of_mem Prod.fst h2
    · exfalso
      have hk : k = k1 := congrArg Prod.fst h2
      apply hnd.1
      rw [← hk]
      exact List.mem_map_of_mem Prod.fst h1
    · exact ih hnd.2 h1 h2

/-- C10 counterexample: a stored record whose `"active"` field holds JSON
`null` — a value that is not `false` — is nevertheless excluded from
`get_all_user_ids`, because the code tests Python truthiness of
`.get("active", True)`, not equality with `false`.  This refutes "only records
with active explicitly set to false are excluded". -/
theorem c10_cex :
    (7 : Int) ∉ get_all_user_ids intOfKey
        [("7", ⟨7, "u", "t", some JValue.jnull⟩)] ∧
    (⟨7, "u", "t", some JValue.jnull⟩ : UserRecord).active ≠
      some (JValue.jbool false) := by decide

/-- C10 amended: a record lacking the `"active"` field is treated as active;
in general a record's id is returned exactly when its `"active"` field is
absent or holds a Python-truthy value (`true`, a nonzero number, a nonempty
string) — records whose field holds a falsy value (`false`, but also `null`,
`0`, `""`) are excluded.  Stated for stores with duplicate-free keys (a
Python dict) whose keys convert injectively to ids. -/
theorem c10_active_default (toInt : String → Int) (store : Store)
    (hnd : (store.map Prod.fst).Nodup)
    (hinj : ∀ k1 k2, k1 ∈ store.map Prod.fst → k2 ∈ store.map Prod.fst →
      toInt k1 = toInt k2 → k1 = k2)
    (k : String) (r : UserRecord) (hmem : (k, r) ∈ store) :
    toInt k ∈ get_all_user_ids toInt store ↔
      (r.active = none ∨ ∃ v, r.active = some v ∧ truthy v = true) := by
  have hact : (r.active = none ∨ ∃ v, r.active = some v ∧ truthy v = true) ↔
      activeTruthy r = true := by
    cases h : r.active with
    | none => simp [activeTruthy, h]
    | some v => simp [activeTruthy, h]
  rw [hact]
  unfold get_all_user_ids
  constructor
  · intro hin
    rcases List.mem_map.mp hin with ⟨p, hp, heq⟩
    rcases List.mem_filter.mp hp with ⟨hpmem, hpact⟩
    have hk : p.1 = k :=
      hinj p.1 k (List.mem_map_of_mem Prod.fst hpmem)
        (List.mem_map_of_mem Prod.fst hmem) heq
    have hpr : (k, p.2) ∈ store := by
      rw [← hk]
      exact hpmem
    have hval : p.2 = r := nodup_keys_value_eq k p.2 r store hnd hpr hmem
    rw [← hval]
    exact hpact
  · intro hactr
    exact List.mem_map.mpr ⟨(k, r), List.mem_filter.mpr ⟨hmem, hactr⟩, rfl⟩

/-- Witness for the amended C10 at a concrete input: the record under key "7"
lacks the `"active"` field, and its id 7 is returned. -/
theorem c10_witness :
    (7 : Int) ∈ get_all_user_ids intOfKey [("7", ⟨7, "u", "t", none⟩)] := by
  have h := c10_active_default intOfKey [("7", ⟨7, "u", "t", none⟩)]
    (by decide)
    (by
      intro k1 k2 h1 h2 _
      simp only [List.map_cons, List.map_nil, List.mem_singleton] at h1 h2
      rw [h1, h2])
    "7" ⟨7, "u", "t", none⟩ (by decide)
  have h7 : intOfKey "7" = (7 : Int) := by decide
  rw [h7] at h
  exact h.mpr (Or.inl rfl)

end Bot
